import Mathlib

/-!
Verification development for `src/Storages/Kafka/StorageKafka.cpp`:
the consumer pool (`pushReadBuffer` / `popReadBuffer`), the streaming
scheduler (`threadFunc`), the delivery round (`streamToViews`), the
dependency check (`checkDependencies`), and the lifecycle operations
(`startup`, `shutdown`, `read`).

Machine integers are modelled by `Nat` (no overflow is relevant here),
buffers by `Nat` identifiers, and fallible code by `Option` / `Except`.
-/

namespace KafkaModel

/-- `RESCHEDULE_MS` from the anonymous namespace (line 55). -/
def RESCHEDULE_MS : Nat := 500

/-- `CLEANUP_TIMEOUT_MS` from the anonymous namespace (line 56). -/
def CLEANUP_TIMEOUT_MS : Nat := 3000

/-- `MAX_THREAD_WORK_DURATION_MS` from the anonymous namespace (line 57). -/
def MAX_THREAD_WORK_DURATION_MS : Nat := 60000

/-- A `ConsumerBufferPtr` is identified by a numeric id. -/
abbrev ConsumerBufferPtr := Nat

/-- The pool state of `StorageKafka`: the `buffers` vector guarded by
`mutex`, and the counting semaphore's available level `sem`.  The vector is
represented most-recently-pushed first, so the C++ `push_back` is `cons` and
`back()` / `pop_back()` are head and tail; the code only ever accesses the
back, so this order choice is observation-equivalent.  The fields `out`
(buffers currently checked out by callers) and `prov` (number of buffers
ever provisioned) are ghost state used to express the checked-out bound. -/
structure PoolSys where
  buffers : List ConsumerBufferPtr
  sem : Nat
  out : List ConsumerBufferPtr
  prov : Nat
deriving Repr, DecidableEq

/-- The pool at construction time: empty, semaphore level 0
(`semaphore(0, num_consumers)`, line 139). -/
def poolInit : PoolSys := ⟨[], 0, [], 0⟩

/-- `StorageKafka::pushReadBuffer` (lines 285-290): under the mutex,
`buffers.push_back(buffer)`, then `semaphore.set()`. -/
def pushReadBuffer (s : PoolSys) (b : ConsumerBufferPtr) : PoolSys :=
  { s with buffers := b :: s.buffers, sem := s.sem + 1 }

/-- `StorageKafka::popReadBuffer(timeout)` (lines 299-315), state part:
acquire the semaphore (returns `none` when the level is 0, i.e. the wait
blocks or times out), then under the mutex take `buffers.back()` and
`pop_back()`. -/
def popReadBuffer (s : PoolSys) : Option (ConsumerBufferPtr × PoolSys) :=
  match s.sem, s.buffers with
  | 0, _ => none
  | _ + 1, [] => none
  | n + 1, b :: rest => some (b, { s with buffers := rest, sem := n })

/-- The operations that touch the pool: provisioning a fresh buffer at
startup (`pushReadBuffer(createReadBuffer(i))`, line 255), checking a
buffer out (`popReadBuffer`, used by the read path and shutdown), and
checking a previously popped buffer back in (`pushReadBuffer` from the
stream teardown path). -/
inductive PoolStep : PoolSys → PoolSys → Prop
  | provision (s : PoolSys) (b : ConsumerBufferPtr)
      (hb : b ∉ s.buffers ++ s.out) :
      PoolStep s { pushReadBuffer s b with prov := s.prov + 1 }
  | checkout (s s' : PoolSys) (b : ConsumerBufferPtr)
      (h : popReadBuffer s = some (b, s')) :
      PoolStep s { s' with out := b :: s'.out }
  | checkin (s : PoolSys) (b : ConsumerBufferPtr) (hb : b ∈ s.out) :
      PoolStep s { pushReadBuffer s b with out := s.out.erase b }

/-- Pool invariant: the semaphore level equals the number of pooled
buffers, no buffer is simultaneously pooled and checked out (or pooled or
checked out twice), and pooled + checked-out buffers account for exactly
the provisioned ones. -/
def PoolInv (s : PoolSys) : Prop :=
  s.sem = s.buffers.length ∧ (s.buffers ++ s.out).Nodup ∧
    s.buffers.length + s.out.length = s.prov

theorem poolInv_init : PoolInv poolInit := by
  refine ⟨rfl, ?_, rfl⟩
  simp [poolInit]

theorem poolInv_step {s s' : PoolSys} (hs : PoolInv s) (h : PoolStep s s') :
    PoolInv s' := by
  obtain ⟨hsem, hnd, hcount⟩ := hs
  cases h with
  | provision b hb =>
      refine ⟨by simp [pushReadBuffer, hsem], ?_, by simp [pushReadBuffer]; omega⟩
      simp only [pushReadBuffer, List.cons_append, List.nodup_cons]
      exact ⟨hb, hnd⟩
  | checkout s' b h =>
      unfold popReadBuffer at h
      match hmatch : s.sem, hbuf : s.buffers with
      | 0, l => rw [hmatch, hbuf] at h; exact absurd h (by simp)
      | n + 1, [] => rw [hmatch, hbuf] at h; exact absurd h (by simp)
      | n + 1, c :: rest =>
          rw [hmatch, hbuf] at h
          simp only [Option.some.injEq, Prod.mk.injEq] at h
          obtain ⟨rfl, rfl⟩ := h
          rw [hbuf] at hnd hcount
          rw [hbuf, hmatch] at hsem
          constructor
          · simpa using hsem
          constructor
          · simp only [List.cons_append, List.nodup_cons] at hnd
            exact (List.nodup_middle).mpr (by simpa using hnd)
          · simp at hcount ⊢; omega
  | checkin b hb =>
      have hblen : 0 < s.out.length := List.length_pos_of_mem hb
      have herase : (s.out.erase b).length = s.out.length - 1 :=
        List.length_erase_of_mem hb
      rw [List.nodup_append] at hnd
      obtain ⟨hnb, hno, hdisj⟩ := hnd
      refine ⟨by simp [pushReadBuffer, hsem], ?_, ?_⟩
      · simp only [pushReadBuffer, List.cons_append, List.nodup_cons]
        refine ⟨?_, ?_⟩
        · intro hmem
          rcases List.mem_append.mp hmem with hin | hin
          · exact hdisj hin hb
          · exact absurd (List.mem_of_mem_erase hin)
              (fun _ => (List.Nodup.mem_erase_iff hno).mp hin |>.1 rfl)
        · rw [List.nodup_append]
          exact ⟨hnb, hno.erase b,
            fun a ha hae => hdisj ha (List.mem_of_mem_erase hae)⟩
      · simp only [pushReadBuffer, List.length_cons, herase]
        omega

theorem poolInv_reach {s : PoolSys}
    (h : Relation.ReflTransGen PoolStep poolInit s) : PoolInv s := by
  induction h with
  | refl => exact poolInv_init
  | tail _ step ih => exact poolInv_step ih step

/-- Outcome of the semaphore-wait phase of `popReadBuffer(timeout)`:
either a buffer became available after `waitedMs` milliseconds, or the wait
expired after `waitedMs` milliseconds and the call returned `nullptr`, or a
zero timeout made the call block with no bound. -/
inductive PopOutcome where
  | got (waitedMs : Nat)
  | noneAvailable (waitedMs : Nat)
  | blocksForever
deriving Repr, DecidableEq

/-- Timing model of `StorageKafka::popReadBuffer(timeout)` (lines 299-308):
if `timeout == zero()` then `semaphore.wait()` blocks until the level
becomes positive; otherwise `semaphore.tryWait(timeout)` waits up to
`timeout` ms and the function returns `nullptr` on expiry.  `arrival` is
the first instant (ms from the call) at which the semaphore level becomes
positive, `none` meaning it never does. -/
def popReadBufferWait (timeoutMs : Nat) (arrival : Option Nat) : PopOutcome :=
  if timeoutMs = 0 then
    match arrival with
    | some t => .got t
    | none => .blocksForever
  else
    match arrival with
    | some t => if t ≤ timeoutMs then .got t else .noneAvailable timeoutMs
    | none => .noneAvailable timeoutMs

/-- One downstream dependent as `StorageKafka::checkDependencies`
(lines 444-469) observes it through `DatabaseCatalog`: whether
`tryGetTable` succeeds (`present`), whether the `dynamic_cast` to
`StorageMaterializedView` succeeds (`isMV`), whether `tryGetTargetTable`
succeeds (`targetExists`), and the dependent's own dependencies. -/
inductive DepNode where
  | mk (present : Bool) (isMV : Bool) (targetExists : Bool)
       (subdeps : List DepNode)

mutual

/-- The per-dependent body of the loop in `checkDependencies`
(lines 452-466): `tryGetTable` failure or a materialized view without a
target table is not ready, otherwise recurse into the dependent's own
dependencies. -/
def checkDepNode : DepNode → Bool
  | .mk present isMV targetExists subdeps =>
    if !present then false
    else if isMV && !targetExists then false
    else checkDepList subdeps

/-- `StorageKafka::checkDependencies` over a dependency list (lines
444-469): an empty list returns `true`; otherwise every dependent must
pass `checkDepNode`. -/
def checkDepList : List DepNode → Bool
  | [] => true
  | d :: ds => checkDepNode d && checkDepList ds

end

/-- Top-level `checkDependencies(table_id)`, applied to the catalog's
dependency list for `table_id`. -/
def checkDependencies (deps : List DepNode) : Bool := checkDepList deps

/-- Events inside one `streamToViews` round: a record handed to the sink
by `copyData` (line 568), or `commit()` on the stream of consumer `i`
(line 574). -/
inductive REv where
  | deliver (record : Nat)
  | commit (stream : Nat)
deriving Repr, DecidableEq

/-- What one `KafkaBlockInputStream` contributes to a round: the records
it yields to `copyData` (in partition order) and its `isStalled()` flag
after the copy. -/
structure StreamData where
  records : List Nat
  stalled : Bool
deriving Repr, DecidableEq

/-- External data consumed by one `streamToViews` call: whether
`DatabaseCatalog::getTable` succeeds (line 522, throws otherwise),
whether `copyData` raises (line 568), and the per-consumer streams. -/
structure RoundInput where
  tableExists : Bool
  copyFails : Bool
  streams : List StreamData
deriving Repr, DecidableEq

/-- The commit loop of `streamToViews` (lines 570-575): iterate over the
streams in order, fold `some_stream_is_stalled` with `||`, and call
`commit()` on each stream unconditionally.  Returns the folded flag and
the commit events, with `i` the index of the first stream. -/
def commitLoop : Bool → Nat → List StreamData → Bool × List REv
  | acc, _, [] => (acc, [])
  | acc, i, s :: rest =>
    let r := commitLoop (acc || s.stalled) (i + 1) rest
    (r.1, REv.commit i :: r.2)

/-- `StorageKafka::streamToViews` (lines 519-578): throws when the engine
table is missing; builds one stream per created consumer; `copyData`
copies the union of the streams' records into the insert sink (an
exception there propagates); then the commit loop runs and the disjunction
of the per-stream stalled flags is returned.  The result is the event
trace (deliveries, then commits) and `some_stream_is_stalled`. -/
def streamToViews (inp : RoundInput) : Except Unit (List REv × Bool) :=
  if !inp.tableExists then .error ()
  else if inp.copyFails then .error ()
  else
    let delivered := (inp.streams.map StreamData.records).flatten
    let c := commitLoop false 0 inp.streams
    .ok (delivered.map REv.deliver ++ c.2, c.1)

theorem commitLoop_fst (acc : Bool) (i : Nat) (l : List StreamData) :
    (commitLoop acc i l).1 = (acc || l.any StreamData.stalled) := by
  induction l generalizing acc i with
  | nil => simp [commitLoop]
  | cons s rest ih => simp [commitLoop, ih, Bool.or_assoc]

theorem commitLoop_mem_commit (acc : Bool) (i : Nat) (l : List StreamData)
    (j : Nat) (hj : j < l.length) : REv.commit (i + j) ∈ (commitLoop acc i l).2 := by
  induction l generalizing acc i j with
  | nil => simp at hj
  | cons s rest ih =>
      cases j with
      | zero => simp [commitLoop]
      | succ j' =>
          have := ih (acc || s.stalled) (i + 1) j' (by simpa using hj)
          simp only [commitLoop, List.mem_cons]
          right
          have harith : i + 1 + j' = i + (j' + 1) := by omega
          rwa [harith] at this

theorem commitLoop_all_commit (acc : Bool) (i : Nat) (l : List StreamData) :
    ∀ e ∈ (commitLoop acc i l).2, ∃ j, e = REv.commit j := by
  induction l generalizing acc i with
  | nil => simp [commitLoop]
  | cons s rest ih =>
      intro e he
      simp only [commitLoop, List.mem_cons] at he
      rcases he with rfl | he
      · exact ⟨i, rfl⟩
      · exact ih (acc || s.stalled) (i + 1) e he

/-- The externally observable state `StorageKafka::threadFunc`
(lines 471-516) reads during one scheduling invocation.  The functions
indexed by the iteration counter `k` give the values the code observes at
iteration `k` of the `while` loop: shared state such as `stream_cancelled`
and the catalog may change between reads, so each read is a separate
observation. -/
structure SchedulerEnv where
  /-- Catalog dependency list at the entry read (line 477). -/
  depsInit : List DepNode
  /-- `num_created_consumers` (fixed after startup). -/
  numCreated : Nat
  /-- `stream_cancelled` as read by the loop condition of iteration `k`. -/
  cancelledAt : Nat → Bool
  /-- Catalog dependency list at `checkDependencies` of iteration `k`. -/
  depsAt : Nat → List DepNode
  /-- Whether `getTable` succeeds in the round of iteration `k`. -/
  tableExistsAt : Nat → Bool
  /-- Whether `copyData` raises in the round of iteration `k`. -/
  copyFailsAt : Nat → Bool
  /-- Stream `i`'s contribution in the round of iteration `k`. -/
  streamDataAt : Nat → Nat → StreamData
  /-- `duration.count()` measured after the round of iteration `k`
  (line 499), in ms since `start_time`. -/
  elapsedAt : Nat → Nat
  /-- `stream_cancelled` as read at line 514. -/
  cancelledFinal : Bool

/-- The `RoundInput` of iteration `k`: `streamToViews` builds exactly one
stream per created consumer (loop at line 542). -/
def roundInputAt (env : SchedulerEnv) (k : Nat) : RoundInput :=
  { tableExists := env.tableExistsAt k
    copyFails := env.copyFailsAt k
    streams := (List.range env.numCreated).map (env.streamDataAt k) }

/-- Scheduler-level events: the start of round `k` (the code reaches the
`streamToViews` call of iteration `k`), an event from inside round `k`,
the exception of round `k` reaching the `catch` at line 508, and
`task->scheduleAfter(delay)` (line 515). -/
inductive SEv where
  | roundStart (k : Nat)
  | round (k : Nat) (e : REv)
  | roundException (k : Nat)
  | reschedule (delayMs : Nat)
deriving Repr, DecidableEq

/-- The `while` loop of `threadFunc` (lines 483-505), from iteration `k`
on.  `fuel` bounds how many iterations are unfolded; the second component
is `true` when the loop exited by one of the code's own exit paths within
`fuel` iterations (loop condition false, dependency check failed, round
stalled, time budget exceeded, or an exception), and `false` when the
fuel ran out with the loop still running. -/
def tfLoop (env : SchedulerEnv) : Nat → Nat → List SEv × Bool
  | 0, _ => ([], false)
  | fuel + 1, k =>
    if env.cancelledAt k || decide (env.numCreated = 0) then ([], true)
    else if !(checkDependencies (env.depsAt k)) then ([], true)
    else
      match streamToViews (roundInputAt env k) with
      | .error _ => ([SEv.roundStart k, SEv.roundException k], true)
      | .ok (revs, stalled) =>
        let evs := SEv.roundStart k :: revs.map (SEv.round k)
        if stalled then (evs, true)
        else if decide (env.elapsedAt k > MAX_THREAD_WORK_DURATION_MS) then
          (evs, true)
        else
          let r := tfLoop env fuel (k + 1)
          (evs ++ r.1, r.2)

/-- `StorageKafka::threadFunc` (lines 471-516): the `try` body runs the
loop only when the entry dependency count is positive; every exception is
caught at line 508; afterwards, if `stream_cancelled` is not set,
`task->scheduleAfter(RESCHEDULE_MS)` is issued.  The reschedule is
appended only when the loop actually exited within `fuel` iterations. -/
def threadFuncBody (env : SchedulerEnv) (fuel : Nat) : List SEv × Bool :=
  if env.depsInit.length ≠ 0 then tfLoop env fuel 0 else ([], true)

def threadFunc (env : SchedulerEnv) (fuel : Nat) : List SEv × Bool :=
  let body := threadFuncBody env fuel
  if body.2 && !env.cancelledFinal then
    (body.1 ++ [SEv.reschedule RESCHEDULE_MS], body.2)
  else body

/-- Startup events: consumer slot `i` provisioned, slot `i` failed with a
logged `cppkafka::Exception`, and `task->activateAndSchedule()`. -/
inductive StartEv where
  | created (i : Nat)
  | failed (i : Nat)
  | activate
deriving Repr, DecidableEq

/-- The provisioning loop of `StorageKafka::startup` (lines 251-262):
for each consumer index, `pushReadBuffer(createReadBuffer(i))` and
`++num_created_consumers` on success; a `cppkafka::Exception` (modelled by
`factory i = none`) is logged and the loop continues. -/
def startupLoop (factory : Nat → Option ConsumerBufferPtr) :
    List Nat → PoolSys → Nat → PoolSys × Nat × List StartEv
  | [], s, created => (s, created, [])
  | i :: rest, s, created =>
    match factory i with
    | some b =>
      let r := startupLoop factory rest (pushReadBuffer s b) (created + 1)
      (r.1, r.2.1, StartEv.created i :: r.2.2)
    | none =>
      let r := startupLoop factory rest s created
      (r.1, r.2.1, StartEv.failed i :: r.2.2)

/-- `StorageKafka::startup` (lines 249-266): run the provisioning loop
over all configured consumer indices starting from the empty pool and
`num_created_consumers = 0`, then activate the scheduler task. -/
def startup (numConsumers : Nat) (factory : Nat → Option ConsumerBufferPtr) :
    PoolSys × Nat × List StartEv :=
  let r := startupLoop factory (List.range numConsumers) poolInit 0
  (r.1, r.2.1, r.2.2 ++ [StartEv.activate])

/-- Shutdown events, in the order `StorageKafka::shutdown` (lines 269-282)
produces them: `stream_cancelled = true`, `task->deactivate()`, one
`popReadBuffer()` per created consumer, and
`rd_kafka_wait_destroyed(CLEANUP_TIMEOUT_MS)`. -/
inductive ShutEv where
  | setCancelled
  | deactivateTask
  | popped
  | waitDestroyed (timeoutMs : Nat)
deriving Repr, DecidableEq

/-- The drain loop of `shutdown` (lines 278-279): `num_created_consumers`
calls to `popReadBuffer()` (timeout zero, i.e. `semaphore.wait()`).
Returns the final pool, the number of pops that completed, and whether
every pop found the semaphore already positive (`true` = none of the
waits would block). -/
def drainLoop : Nat → PoolSys → PoolSys × Nat × Bool
  | 0, s => (s, 0, true)
  | n + 1, s =>
    match popReadBuffer s with
    | some (_, s') =>
      let r := drainLoop n s'
      (r.1, r.2.1 + 1, r.2.2)
    | none => (s, 0, false)

/-- `StorageKafka::shutdown` (lines 269-282): set `stream_cancelled`,
deactivate the task, drain the pool, wait for librdkafka teardown with a
bounded timeout.  Returns the event trace, the drained pool, and whether
the drain completed without blocking. -/
def shutdown (numCreated : Nat) (s : PoolSys) :
    List ShutEv × PoolSys × Bool :=
  let d := drainLoop numCreated s
  ([ShutEv.setCancelled, ShutEv.deactivateTask]
     ++ List.replicate d.2.1 ShutEv.popped
     ++ [ShutEv.waitDestroyed CLEANUP_TIMEOUT_MS],
   d.1, d.2.2)

/-- `StorageKafka::read` (lines 205-235): when `num_created_consumers`
is zero, return the empty pipe list; otherwise one source per created
consumer. -/
def readPipes (numCreated : Nat) : List Nat :=
  if numCreated = 0 then []
  else List.range numCreated

/-! Lemmas about the scheduler loop. -/

/-- Exhaustive case analysis of one unfolding of the `while` loop. -/
theorem tfLoop_succ_cases (env : SchedulerEnv) (fuel k : Nat) :
    (tfLoop env (fuel + 1) k = ([], true) ∧
      ((env.cancelledAt k || decide (env.numCreated = 0)) = true ∨
        checkDependencies (env.depsAt k) = false)) ∨
    ((env.cancelledAt k = false ∧ env.numCreated ≠ 0 ∧
        checkDependencies (env.depsAt k) = true) ∧
      ((streamToViews (roundInputAt env k) = .error () ∧
          tfLoop env (fuel + 1) k =
            ([SEv.roundStart k, SEv.roundException k], true)) ∨
        (∃ revs, streamToViews (roundInputAt env k) = .ok (revs, true) ∧
          tfLoop env (fuel + 1) k =
            (SEv.roundStart k :: revs.map (SEv.round k), true)) ∨
        (∃ revs, streamToViews (roundInputAt env k) = .ok (revs, false) ∧
          env.elapsedAt k > MAX_THREAD_WORK_DURATION_MS ∧
          tfLoop env (fuel + 1) k =
            (SEv.roundStart k :: revs.map (SEv.round k), true)) ∨
        (∃ revs, streamToViews (roundInputAt env k) = .ok (revs, false) ∧
          env.elapsedAt k ≤ MAX_THREAD_WORK_DURATION_MS ∧
          tfLoop env (fuel + 1) k =
            ((SEv.roundStart k :: revs.map (SEv.round k)) ++
                (tfLoop env fuel (k + 1)).1,
              (tfLoop env fuel (k + 1)).2)))) := by
  by_cases hc : (env.cancelledAt k || decide (env.numCreated = 0)) = true
  · left
    exact ⟨by rw [tfLoop]; simp [hc], Or.inl hc⟩
  · have hc' := hc
    rw [Bool.not_eq_true, Bool.or_eq_false_iff] at hc'
    obtain ⟨hcan, hnum⟩ := hc'
    have hnum' : env.numCreated ≠ 0 := of_decide_eq_false hnum
    by_cases hdep : checkDependencies (env.depsAt k) = true
    · right
      refine ⟨⟨hcan, hnum', hdep⟩, ?_⟩
      cases hst : streamToViews (roundInputAt env k) with
      | error e =>
          left
          cases e
          refine ⟨rfl, ?_⟩
          rw [tfLoop]
          simp [hcan, hnum, hdep, hst]
      | ok v =>
          obtain ⟨revs, stalled⟩ := v
          cases stalled with
          | true =>
              right; left
              refine ⟨revs, rfl, ?_⟩
              rw [tfLoop]
              simp [hcan, hnum, hdep, hst]
          | false =>
              by_cases hel : env.elapsedAt k > MAX_THREAD_WORK_DURATION_MS
              · right; right; left
                refine ⟨revs, rfl, hel, ?_⟩
                rw [tfLoop]
                simp [hcan, hnum, hdep, hst, hel]
              · right; right; right
                refine ⟨revs, rfl, Nat.le_of_not_lt hel, ?_⟩
                rw [tfLoop]
                simp [hcan, hnum, hdep, hst, hel]
    · left
      rw [Bool.not_eq_true] at hdep
      refine ⟨?_, Or.inr hdep⟩
      rw [tfLoop]
      simp [hc, hdep]

theorem roundStart_mem_round_trace {j k : Nat} {revs : List REv}
    (h : SEv.roundStart j ∈ SEv.roundStart k :: revs.map (SEv.round k)) :
    j = k := by
  rcases List.mem_cons.mp h with h | h
  · exact SEv.roundStart.inj h
  · rcases List.mem_map.mp h with ⟨e, _, he⟩; cases he

/-- If round `j` started (the loop reached `streamToViews` for iteration
`j` starting from iteration `k`), then the loop condition and dependency
check passed at `j`, and every earlier iteration from `k` on finished a
non-stalled round within the time budget. -/
theorem tfLoop_roundStart_facts (env : SchedulerEnv) (fuel : Nat) :
    ∀ k j, SEv.roundStart j ∈ (tfLoop env fuel k).1 →
      k ≤ j ∧ env.cancelledAt j = false ∧ env.numCreated ≠ 0 ∧
        checkDependencies (env.depsAt j) = true ∧
        ∀ m, k ≤ m → m < j →
          env.elapsedAt m ≤ MAX_THREAD_WORK_DURATION_MS ∧
          ∃ revs, streamToViews (roundInputAt env m) = .ok (revs, false) := by
  induction fuel with
  | zero => intro k j h; simp [tfLoop] at h
  | succ fuel ih =>
      intro k j h
      rcases tfLoop_succ_cases env fuel k with ⟨heq, _⟩ | ⟨⟨hcan, hnum, hdep⟩, hb⟩
      · rw [heq] at h; simp at h
      · rcases hb with ⟨hst, heq⟩ | ⟨revs, hst, heq⟩ |
          ⟨revs, hst, hel, heq⟩ | ⟨revs, hst, hel, heq⟩
        · rw [heq] at h
          have hj : j = k := by
            rcases List.mem_cons.mp h with h | h
            · exact SEv.roundStart.inj h
            · rcases List.mem_cons.mp h with h | h
              · cases h
              · simp at h
          subst hj
          exact ⟨le_refl _, hcan, hnum, hdep, fun m hm hm' => by omega⟩
        · rw [heq] at h
          have hj := roundStart_mem_round_trace h
          subst hj
          exact ⟨le_refl _, hcan, hnum, hdep, fun m hm hm' => by omega⟩
        · rw [heq] at h
          have hj := roundStart_mem_round_trace h
          subst hj
          exact ⟨le_refl _, hcan, hnum, hdep, fun m hm hm' => by omega⟩
        · rw [heq] at h
          rcases List.mem_append.mp h with h | h
          · have hj := roundStart_mem_round_trace h
            subst hj
            exact ⟨le_refl _, hcan, hnum, hdep, fun m hm hm' => by omega⟩
          · obtain ⟨hk, hjcan, hjnum, hjdep, hprev⟩ := ih (k + 1) j h
            refine ⟨by omega, hjcan, hjnum, hjdep, fun m hm hm' => ?_⟩
            rcases Nat.eq_or_lt_of_le hm with rfl | hm2
            · exact ⟨hel, revs, hst⟩
            · exact hprev m (by omega) hm'

/-- If round `j` started and broke the loop (exception, stall, or time
budget exceeded), the loop exits within the given fuel. -/
theorem tfLoop_exits_of_break (env : SchedulerEnv) (fuel : Nat) :
    ∀ k j, SEv.roundStart j ∈ (tfLoop env fuel k).1 →
      (streamToViews (roundInputAt env j) = .error () ∨
        (∃ revs, streamToViews (roundInputAt env j) = .ok (revs, true)) ∨
        ((∃ revs, streamToViews (roundInputAt env j) = .ok (revs, false)) ∧
          env.elapsedAt j > MAX_THREAD_WORK_DURATION_MS)) →
      (tfLoop env fuel k).2 = true := by
  induction fuel with
  | zero => intro k j h _; simp [tfLoop] at h
  | succ fuel ih =>
      intro k j h hbrk
      rcases tfLoop_succ_cases env fuel k with ⟨heq, _⟩ | ⟨_, hb⟩
      · rw [heq]
      · rcases hb with ⟨hst, heq⟩ | ⟨revs, hst, heq⟩ |
          ⟨revs, hst, hel, heq⟩ | ⟨revs, hst, hel, heq⟩
        · rw [heq]
        · rw [heq]
        · rw [heq]
        · rw [heq]
          rw [heq] at h
          rcases List.mem_append.mp h with h | h
          · have hj := roundStart_mem_round_trace h
            subst hj
            rcases hbrk with hbrk | ⟨revs', hbrk⟩ | ⟨⟨revs', hbrk⟩, hbel⟩
            · rw [hst] at hbrk; cases hbrk
            · rw [hst] at hbrk
              simp only [Except.ok.injEq, Prod.mk.injEq] at hbrk
              exact absurd hbrk.2.symm (by simp)
            · omega
          · exact ih (k + 1) j h hbrk

/-- If the entry condition of the loop fails at iteration 0 (cancelled,
no consumers, or the dependency check fails), the loop produces no events
and (with at least one iteration of fuel) exits at once. -/
theorem tfLoop_nil_of_entry_fail (env : SchedulerEnv) (fuel : Nat)
    (h : env.cancelledAt 0 = true ∨ env.numCreated = 0 ∨
      checkDependencies (env.depsAt 0) = false) :
    (tfLoop env fuel 0).1 = [] ∧ (0 < fuel → (tfLoop env fuel 0).2 = true) := by
  cases fuel with
  | zero => exact ⟨rfl, fun hf => absurd hf (by omega)⟩
  | succ fuel =>
      rcases tfLoop_succ_cases env fuel 0 with ⟨heq, _⟩ | ⟨⟨hcan, hnum, hdep⟩, _⟩
      · rw [heq]; exact ⟨rfl, fun _ => rfl⟩
      · rcases h with h | h | h
        · rw [hcan] at h; cases h
        · exact absurd h hnum
        · rw [hdep] at h; cases h

theorem tfLoop_no_reschedule (env : SchedulerEnv) (fuel : Nat) :
    ∀ k d, SEv.reschedule d ∉ (tfLoop env fuel k).1 := by
  induction fuel with
  | zero => intro k d h; simp [tfLoop] at h
  | succ fuel ih =>
      intro k d h
      rw [tfLoop] at h
      by_cases hc : (env.cancelledAt k || decide (env.numCreated = 0)) = true
      · simp [hc] at h
      · rw [Bool.not_eq_true] at hc
        simp only [hc, Bool.false_eq_true, if_false] at h
        by_cases hdep : checkDependencies (env.depsAt k) = true
        · simp only [hdep, Bool.not_true, Bool.false_eq_true, if_false] at h
          cases hst : streamToViews (roundInputAt env k) with
          | error e => rw [hst] at h; simp at h
          | ok v =>
              rw [hst] at h
              obtain ⟨revs, stalled⟩ := v
              simp only at h
              by_cases hstall : stalled = true
              · subst hstall; simp at h
              · rw [Bool.not_eq_true] at hstall
                subst hstall
                simp only [Bool.false_eq_true, if_false] at h
                by_cases hel :
                    decide (env.elapsedAt k > MAX_THREAD_WORK_DURATION_MS) = true
                · simp [hel] at h
                · rw [Bool.not_eq_true] at hel
                  simp only [hel, Bool.false_eq_true, if_false] at h
                  simp only [List.cons_append, List.mem_cons, List.mem_append] at h
                  rcases h with h | h | h
                  · cases h
                  · rcases List.mem_map.mp h with ⟨e, _, he⟩; cases he
                  · exact ih (k + 1) d h
        · simp [hdep] at h

/-- Whether a scheduler event is a reschedule request (as opposed to any
event of a delivery round). -/
def isReschedule : SEv → Bool
  | .reschedule _ => true
  | _ => false

/-- An invocation trace is "silent" when it contains nothing except
reschedule requests: no round started, no record was delivered, nothing
was committed. -/
def schedOnly (trace : List SEv) : Bool := trace.all isReschedule

theorem threadFunc_fst (env : SchedulerEnv) (fuel : Nat) :
    (threadFunc env fuel).1 =
      if ((threadFuncBody env fuel).2 && !env.cancelledFinal) = true then
        (threadFuncBody env fuel).1 ++ [SEv.reschedule RESCHEDULE_MS]
      else (threadFuncBody env fuel).1 := by
  by_cases hA : ((threadFuncBody env fuel).2 && !env.cancelledFinal) = true
  · simp [threadFunc, hA]
  · rw [Bool.not_eq_true] at hA
    simp [threadFunc, hA]

theorem threadFunc_roundStart_iff (env : SchedulerEnv) (fuel j : Nat) :
    SEv.roundStart j ∈ (threadFunc env fuel).1 ↔
      env.depsInit ≠ [] ∧ SEv.roundStart j ∈ (tfLoop env fuel 0).1 := by
  rw [threadFunc_fst]
  have hbody : SEv.roundStart j ∈ (threadFuncBody env fuel).1 ↔
      env.depsInit ≠ [] ∧ SEv.roundStart j ∈ (tfLoop env fuel 0).1 := by
    unfold threadFuncBody
    by_cases hd : env.depsInit.length ≠ 0
    · have : env.depsInit ≠ [] := fun he => hd (by rw [he]; rfl)
      simp [hd, this]
    · push_neg at hd
      have : env.depsInit = [] := List.length_eq_zero.mp hd
      simp [hd, this]
  by_cases hA : ((threadFuncBody env fuel).2 && !env.cancelledFinal) = true
  · simp only [hA, if_true, List.mem_append, List.mem_singleton]
    rw [← hbody]
    constructor
    · rintro (h | h)
      · exact h
      · cases h
    · exact Or.inl
  · simp only [hA, if_false]
    exact hbody

theorem threadFunc_reschedule_iff (env : SchedulerEnv) (fuel d : Nat) :
    SEv.reschedule d ∈ (threadFunc env fuel).1 ↔
      d = RESCHEDULE_MS ∧ (threadFuncBody env fuel).2 = true ∧
        env.cancelledFinal = false := by
  rw [threadFunc_fst]
  have hbody : SEv.reschedule d ∉ (threadFuncBody env fuel).1 := by
    unfold threadFuncBody
    by_cases hd : env.depsInit.length ≠ 0
    · rw [if_pos hd]
      exact tfLoop_no_reschedule env fuel 0 d
    · simp [hd]
  by_cases hA : ((threadFuncBody env fuel).2 && !env.cancelledFinal) = true
  · have hA' := hA
    rw [Bool.and_eq_true, Bool.not_eq_true'] at hA'
    simp only [hA, if_true, List.mem_append, List.mem_singleton]
    constructor
    · rintro (h | h)
      · exact absurd h hbody
      · exact ⟨SEv.reschedule.inj h, hA'.1, hA'.2⟩
    · rintro ⟨rfl, _, _⟩
      exact Or.inr rfl
  · simp only [hA, if_false]
    constructor
    · intro h; exact absurd h hbody
    · rintro ⟨rfl, h2, h3⟩
      exact absurd (by rw [h2, h3]; rfl) hA

/-! Claim theorems. -/

/-- Helper for C1: in a trace made of delivery events followed by commit
events, every commit position is strictly after every delivery position. -/
theorem commits_after_delivers {D C : List REv}
    (hD : ∀ e ∈ D, ∃ d, e = REv.deliver d)
    (hC : ∀ e ∈ C, ∃ c, e = REv.commit c)
    (p q : Fin (D ++ C).length) (c d : Nat)
    (hp : (D ++ C).get p = REv.commit c)
    (hq : (D ++ C).get q = REv.deliver d) :
    (q : Nat) < (p : Nat) := by
  have hlen : (D ++ C).length = D.length + C.length := List.length_append D C
  have hqD : (q : Nat) < D.length := by
    by_contra hcon
    push_neg at hcon
    have h3 : (q : Nat) - D.length < C.length := by
      have := q.2; omega
    have hget : (D ++ C).get q = C.get ⟨(q : Nat) - D.length, h3⟩ := by
      rw [List.get_eq_getElem, List.get_eq_getElem]
      exact List.getElem_append_right hcon
    have hmem : (D ++ C).get q ∈ C := by
      rw [hget]; exact List.get_mem C _ _
    obtain ⟨c', hc'⟩ := hC _ hmem
    rw [hq] at hc'
    cases hc'
  have hpD : D.length ≤ (p : Nat) := by
    by_contra hcon
    push_neg at hcon
    have hget : (D ++ C).get p = D.get ⟨(p : Nat), hcon⟩ := by
      rw [List.get_eq_getElem, List.get_eq_getElem]
      exact List.getElem_append_left hcon
    have hmem : (D ++ C).get p ∈ D := by
      rw [hget]; exact List.get_mem D _ _
    obtain ⟨d', hd'⟩ := hD _ hmem
    rw [hp] at hd'
    cases hd'
  omega

/-- C1: in a delivery round (`streamToViews`), offsets are committed only
after delivery: every `commit()` event in the round's trace is strictly
after every record handed to the sink by `copyData`, and `commit()` is
invoked for every participating consumer stream, whatever the per-stream
stalled flags are. -/
theorem C1_commit_after_full_delivery (inp : RoundInput) (trace : List REv)
    (st : Bool) (h : streamToViews inp = .ok (trace, st)) :
    (∀ (p q : Fin trace.length) (c d : Nat), trace.get p = REv.commit c →
        trace.get q = REv.deliver d → (q : Nat) < (p : Nat)) ∧
    (∀ i, i < inp.streams.length → REv.commit i ∈ trace) := by
  unfold streamToViews at h
  by_cases ht : inp.tableExists = true
  · by_cases hcf : inp.copyFails = true
    · rw [ht, hcf] at h; simp at h
    · rw [Bool.not_eq_true] at hcf
      simp only [ht, hcf, Bool.not_true, Bool.false_eq_true, if_false,
        Except.ok.injEq, Prod.mk.injEq] at h
      obtain ⟨htr, hst⟩ := h
      subst htr
      have hD : ∀ e ∈ ((inp.streams.map StreamData.records).flatten).map
          REv.deliver, ∃ d, e = REv.deliver d := by
        intro e he
        rcases List.mem_map.mp he with ⟨r, _, rfl⟩
        exact ⟨r, rfl⟩
      have hC := commitLoop_all_commit false 0 inp.streams
      constructor
      · intro p q c d hp hq
        exact commits_after_delivers hD hC p q c d hp hq
      · intro i hi
        apply List.mem_append_right
        have := commitLoop_mem_commit false 0 inp.streams i hi
        simpa using this
  · rw [Bool.not_eq_true] at ht
    rw [ht] at h
    simp at h

theorem C1_commit_after_full_delivery_witness :
    (0 : Nat) < (1 : Nat) ∧
      REv.commit 1 ∈ [REv.deliver 10, REv.commit 0, REv.commit 1] := by
  have h := C1_commit_after_full_delivery
      ⟨true, false, [⟨[10], true⟩, ⟨[], false⟩]⟩
      [REv.deliver 10, REv.commit 0, REv.commit 1] true rfl
  exact ⟨h.1 ⟨1, by decide⟩ ⟨0, by decide⟩ 0 10 rfl rfl, h.2 1 (by decide)⟩

/-- C2: in every state reachable by pool operations from the initial
empty pool, the semaphore level equals the number of buffers in the
`buffers` collection, no buffer is pooled or checked out twice (so no
reader is handed to two callers), and when at most `N` buffers were
provisioned the number of concurrently checked-out buffers is at most
`N`. -/
theorem C2_pool_semaphore_invariant (N : Nat) (s : PoolSys)
    (h : Relation.ReflTransGen PoolStep poolInit s) :
    s.sem = s.buffers.length ∧ (s.buffers ++ s.out).Nodup ∧
      (s.prov ≤ N → s.out.length ≤ N) := by
  obtain ⟨h1, h2, h3⟩ := poolInv_reach h
  exact ⟨h1, h2, fun hp => by omega⟩

/-- A small reachable pool state used to instantiate C2: one buffer
provisioned, still pooled. -/
def poolStateOneBuffer : PoolSys := ⟨[7], 1, [], 1⟩

theorem C2_pool_semaphore_invariant_witness :
    poolStateOneBuffer.sem = poolStateOneBuffer.buffers.length ∧
      (poolStateOneBuffer.buffers ++ poolStateOneBuffer.out).Nodup ∧
      (poolStateOneBuffer.prov ≤ 3 → poolStateOneBuffer.out.length ≤ 3) :=
  C2_pool_semaphore_invariant 3 poolStateOneBuffer
    (Relation.ReflTransGen.single
      (show PoolStep poolInit poolStateOneBuffer from
        PoolStep.provision poolInit 7 (by simp [poolInit])))

/-- Helper for C3: what a successful `popReadBuffer` does to the pool. -/
theorem popReadBuffer_some {s : PoolSys} {b : ConsumerBufferPtr}
    {s' : PoolSys} (h : popReadBuffer s = some (b, s')) :
    s.buffers = b :: s'.buffers ∧ s.sem = s'.sem + 1 ∧
      s'.out = s.out ∧ s'.prov = s.prov := by
  unfold popReadBuffer at h
  match hm : s.sem, hb : s.buffers with
  | 0, l => rw [hm, hb] at h; simp at h
  | n + 1, [] => rw [hm, hb] at h; simp at h
  | n + 1, c :: rest =>
      rw [hm, hb] at h
      simp only [Option.some.injEq, Prod.mk.injEq] at h
      obtain ⟨rfl, rfl⟩ := h
      exact ⟨rfl, rfl, rfl, rfl⟩

/-- C3 counterexample: the claimed third, "non-blocking" mode does not
exist.  No timeout value makes `popReadBuffer` fail immediately (a
"none available" outcome after a 0 ms wait) on a pool that stays empty:
`timeout == 0` blocks with no bound, and `timeout > 0` waits the full
positive `timeout` before reporting "none available". -/
theorem C3_no_nonblocking_mode :
    ¬ ∃ timeoutMs,
        popReadBufferWait timeoutMs none = PopOutcome.noneAvailable 0 := by
  rintro ⟨t, ht⟩
  match t with
  | 0 => simp [popReadBufferWait] at ht
  | n + 1 => simp [popReadBufferWait] at ht

/-- C3 (amended): `popReadBuffer(timeout)` has two modes: with
`timeout == 0` it blocks indefinitely until a reader is available; with
`timeout > 0` it waits at most `timeout` and returns "none available"
(a normal outcome, not an error) on expiry.  There is no mode that fails
immediately on an empty pool.  On success it atomically removes and
returns exactly one reader (the most recently pushed), decrementing the
semaphore by one. -/
theorem C3_pop_two_modes (s : PoolSys) (b : ConsumerBufferPtr)
    (s' : PoolSys) (hpop : popReadBuffer s = some (b, s')) :
    popReadBufferWait 0 none = PopOutcome.blocksForever ∧
    (∀ t, popReadBufferWait 0 (some t) = PopOutcome.got t) ∧
    (∀ tm, tm ≠ 0 →
      popReadBufferWait tm none = PopOutcome.noneAvailable tm) ∧
    (∀ tm t, tm ≠ 0 → t ≤ tm →
      popReadBufferWait tm (some t) = PopOutcome.got t) ∧
    (∀ tm t, tm ≠ 0 → tm < t →
      popReadBufferWait tm (some t) = PopOutcome.noneAvailable tm) ∧
    (s.buffers = b :: s'.buffers ∧ s.sem = s'.sem + 1) := by
  obtain ⟨h1, h2, _, _⟩ := popReadBuffer_some hpop
  refine ⟨rfl, fun t => rfl, fun tm htm => ?_, fun tm t htm hle => ?_,
    fun tm t htm hgt => ?_, h1, h2⟩
  · simp [popReadBufferWait, htm]
  · simp [popReadBufferWait, htm, hle]
  · have hnle : ¬ (t ≤ tm) := by omega
    simp [popReadBufferWait, htm, hnle]

theorem C3_pop_two_modes_witness :
    popReadBufferWait 0 none = PopOutcome.blocksForever ∧
      popReadBufferWait 100 none = PopOutcome.noneAvailable 100 ∧
      popReadBufferWait 100 (some 40) = PopOutcome.got 40 := by
  obtain ⟨h1, _, h3, h4, _, _⟩ :=
    C3_pop_two_modes ⟨[5], 1, [], 1⟩ 5 ⟨[], 0, [], 1⟩ rfl
  exact ⟨h1, h3 100 (by decide), h4 100 40 (by decide) (by decide)⟩

theorem threadFunc_snd (env : SchedulerEnv) (fuel : Nat) :
    (threadFunc env fuel).2 = (threadFuncBody env fuel).2 := by
  by_cases hA : ((threadFuncBody env fuel).2 && !env.cancelledFinal) = true
  · simp [threadFunc, hA]
  · rw [Bool.not_eq_true] at hA
    simp [threadFunc, hA]

theorem schedOnly_of_body_nil (env : SchedulerEnv) (fuel : Nat)
    (h : (threadFuncBody env fuel).1 = []) :
    schedOnly (threadFunc env fuel).1 = true := by
  rw [threadFunc_fst]
  by_cases hA : ((threadFuncBody env fuel).2 && !env.cancelledFinal) = true
  · simp [hA, h, schedOnly, isReschedule]
  · simp [hA, h, schedOnly]

theorem threadFuncBody_nil_of_entry_fail (env : SchedulerEnv) (fuel : Nat)
    (h : env.cancelledAt 0 = true ∨ env.numCreated = 0 ∨
      checkDependencies (env.depsAt 0) = false) :
    (threadFuncBody env fuel).1 = [] ∧
      (0 < fuel → (threadFuncBody env fuel).2 = true) := by
  unfold threadFuncBody
  by_cases hd : env.depsInit.length ≠ 0
  · rw [if_pos hd]
    exact tfLoop_nil_of_entry_fail env fuel h
  · rw [if_neg hd]
    exact ⟨rfl, fun _ => rfl⟩

theorem checkDepList_false_of_unready {x : DepNode}
    (hx : checkDepNode x = false) :
    ∀ pre post, checkDepList (pre ++ x :: post) = false := by
  intro pre
  induction pre with
  | nil => intro post; simp [checkDepList, hx]
  | cons d ds ih => intro post; simp [checkDepList, ih]

/-- C4: a scheduler invocation runs a delivery round at iteration `k`
only if at least one direct dependent existed at entry and the recursive
dependency check succeeded at iteration `k`; a missing dependent
(`tryGetTable` fails) or a materialized-view dependent without a target
table makes the check fail; and when there are no dependents, or the
check fails at the first iteration, the invocation is silent: it emits
nothing except a reschedule request — zero records delivered, zero
commits. -/
theorem C4_dependency_gating (env : SchedulerEnv) (fuel : Nat) :
    (∀ k, SEv.roundStart k ∈ (threadFunc env fuel).1 →
      env.depsInit ≠ [] ∧ checkDependencies (env.depsAt k) = true) ∧
    (env.depsInit = [] → schedOnly (threadFunc env fuel).1 = true) ∧
    (checkDependencies (env.depsAt 0) = false →
      schedOnly (threadFunc env fuel).1 = true) ∧
    (∀ pre post mv tg subs,
      checkDependencies
        (pre ++ DepNode.mk false mv tg subs :: post) = false) ∧
    (∀ pre post subs,
      checkDependencies
        (pre ++ DepNode.mk true true false subs :: post) = false) := by
  refine ⟨?_, ?_, ?_, ?_, ?_⟩
  · intro k h
    obtain ⟨hne, hmem⟩ := (threadFunc_roundStart_iff env fuel k).mp h
    obtain ⟨_, _, _, hdep, _⟩ := tfLoop_roundStart_facts env fuel 0 k hmem
    exact ⟨hne, hdep⟩
  · intro h
    apply schedOnly_of_body_nil
    unfold threadFuncBody
    simp [h]
  · intro h
    apply schedOnly_of_body_nil
    exact (threadFuncBody_nil_of_entry_fail env fuel (Or.inr (Or.inr h))).1
  · intro pre post mv tg subs
    exact checkDepList_false_of_unready (by simp [checkDepNode]) pre post
  · intro pre post subs
    exact checkDepList_false_of_unready (by simp [checkDepNode]) pre post

/-- Environment with no downstream dependents. -/
def envNoDeps : SchedulerEnv :=
  { depsInit := []
    numCreated := 1
    cancelledAt := fun _ => false
    depsAt := fun _ => []
    tableExistsAt := fun _ => true
    copyFailsAt := fun _ => false
    streamDataAt := fun _ _ => ⟨[], false⟩
    elapsedAt := fun _ => 0
    cancelledFinal := false }

theorem C4_dependency_gating_witness :
    schedOnly (threadFunc envNoDeps 3).1 = true ∧
      checkDependencies
        ([] ++ DepNode.mk false false false [] :: []) = false :=
  ⟨(C4_dependency_gating envNoDeps 3).2.1 rfl,
    (C4_dependency_gating envNoDeps 3).2.2.2.1 [] [] false false []⟩

/-- C5: an exception inside a delivery round makes the loop exit (it is
caught at the scheduler boundary — `threadFunc`'s result type is total,
nothing propagates); whenever the loop exits with the final read of the
cancellation flag false a reschedule after `RESCHEDULE_MS` is issued;
when the flag is set no reschedule at all is issued; and every issued
reschedule uses the fixed delay. -/
theorem C5_exception_handling (env : SchedulerEnv) (fuel : Nat) :
    (∀ k, SEv.roundStart k ∈ (threadFunc env fuel).1 →
      streamToViews (roundInputAt env k) = .error () →
      (threadFunc env fuel).2 = true) ∧
    ((threadFunc env fuel).2 = true → env.cancelledFinal = false →
      SEv.reschedule RESCHEDULE_MS ∈ (threadFunc env fuel).1) ∧
    (env.cancelledFinal = true →
      ∀ d, SEv.reschedule d ∉ (threadFunc env fuel).1) ∧
    (∀ d, SEv.reschedule d ∈ (threadFunc env fuel).1 →
      d = RESCHEDULE_MS) := by
  refine ⟨?_, ?_, ?_, ?_⟩
  · intro k h herr
    obtain ⟨hne, hmem⟩ := (threadFunc_roundStart_iff env fuel k).mp h
    have hexit := tfLoop_exits_of_break env fuel 0 k hmem (Or.inl herr)
    rw [threadFunc_snd]
    unfold threadFuncBody
    rw [if_pos (fun he => hne (List.length_eq_zero.mp he))]
    exact hexit
  · intro h2 hcf
    rw [threadFunc_snd] at h2
    exact (threadFunc_reschedule_iff env fuel RESCHEDULE_MS).mpr ⟨rfl, h2, hcf⟩
  · intro hcf d h
    have := ((threadFunc_reschedule_iff env fuel d).mp h).2.2
    rw [hcf] at this
    cases this
  · intro d h
    exact ((threadFunc_reschedule_iff env fuel d).mp h).1

/-- Environment with one dependent whose engine table is missing, so the
round of iteration 0 throws. -/
def envRoundThrows : SchedulerEnv :=
  { depsInit := [DepNode.mk true false false []]
    numCreated := 1
    cancelledAt := fun _ => false
    depsAt := fun _ => []
    tableExistsAt := fun _ => false
    copyFailsAt := fun _ => false
    streamDataAt := fun _ _ => ⟨[], false⟩
    elapsedAt := fun _ => 0
    cancelledFinal := false }

theorem C5_exception_handling_witness :
    (threadFunc envRoundThrows 3).2 = true ∧
      SEv.reschedule RESCHEDULE_MS ∈ (threadFunc envRoundThrows 3).1 := by
  have h := C5_exception_handling envRoundThrows 3
  have h1 := h.1 0 (by decide) rfl
  exact ⟨h1, h.2.1 h1 rfl⟩

/-- C6: a new round never starts after the continuous-run budget is
exhausted: round `k + 1` starts only if the elapsed time measured after
round `k` was at most `MAX_THREAD_WORK_DURATION_MS`; and when a round
finishes non-stalled with the budget exceeded, no further round starts
and (cancellation not set) the loop reschedules. -/
theorem C6_time_budget (env : SchedulerEnv) (fuel : Nat) :
    (∀ k, SEv.roundStart (k + 1) ∈ (threadFunc env fuel).1 →
      env.elapsedAt k ≤ MAX_THREAD_WORK_DURATION_MS) ∧
    (∀ k revs, SEv.roundStart k ∈ (threadFunc env fuel).1 →
      streamToViews (roundInputAt env k) = .ok (revs, false) →
      env.elapsedAt k > MAX_THREAD_WORK_DURATION_MS →
      SEv.roundStart (k + 1) ∉ (threadFunc env fuel).1 ∧
        (env.cancelledFinal = false →
          SEv.reschedule RESCHEDULE_MS ∈ (threadFunc env fuel).1)) := by
  constructor
  · intro k h
    obtain ⟨hne, hmem⟩ := (threadFunc_roundStart_iff env fuel (k + 1)).mp h
    obtain ⟨_, _, _, _, hprev⟩ :=
      tfLoop_roundStart_facts env fuel 0 (k + 1) hmem
    exact (hprev k (by omega) (by omega)).1
  · intro k revs h hok hel
    obtain ⟨hne, hmem⟩ := (threadFunc_roundStart_iff env fuel k).mp h
    constructor
    · intro hnext
      obtain ⟨_, hmemnext⟩ :=
        (threadFunc_roundStart_iff env fuel (k + 1)).mp hnext
      obtain ⟨_, _, _, _, hprev⟩ :=
        tfLoop_roundStart_facts env fuel 0 (k + 1) hmemnext
      have := (hprev k (by omega) (by omega)).1
      omega
    · intro hcf
      have hexit := tfLoop_exits_of_break env fuel 0 k hmem
        (Or.inr (Or.inr ⟨⟨revs, hok⟩, hel⟩))
      refine (threadFunc_reschedule_iff env fuel RESCHEDULE_MS).mpr
        ⟨rfl, ?_, hcf⟩
      unfold threadFuncBody
      rw [if_pos (fun he => hne (List.length_eq_zero.mp he))]
      exact hexit

/-- Environment in which rounds flow freely (no stall, no error) and the
measured elapsed time stays at zero. -/
def envFastRounds : SchedulerEnv :=
  { depsInit := [DepNode.mk true false false []]
    numCreated := 1
    cancelledAt := fun _ => false
    depsAt := fun _ => []
    tableExistsAt := fun _ => true
    copyFailsAt := fun _ => false
    streamDataAt := fun _ _ => ⟨[4], false⟩
    elapsedAt := fun _ => 0
    cancelledFinal := false }

theorem C6_time_budget_witness :
    envFastRounds.elapsedAt 0 ≤ MAX_THREAD_WORK_DURATION_MS :=
  (C6_time_budget envFastRounds 3).1 0 (by decide)

/-- C7: the round result returned by `streamToViews` is exactly the
disjunction of the per-stream stalled flags; and when a round reports
stalled the loop starts no further round and (cancellation not set)
reschedules with the fixed `RESCHEDULE_MS` delay. -/
theorem C7_stall_result_and_backoff (env : SchedulerEnv) (fuel : Nat) :
    (∀ inp trace st, streamToViews inp = .ok (trace, st) →
      st = inp.streams.any StreamData.stalled) ∧
    (∀ k revs, SEv.roundStart k ∈ (threadFunc env fuel).1 →
      streamToViews (roundInputAt env k) = .ok (revs, true) →
      SEv.roundStart (k + 1) ∉ (threadFunc env fuel).1 ∧
        (env.cancelledFinal = false →
          SEv.reschedule RESCHEDULE_MS ∈ (threadFunc env fuel).1)) := by
  constructor
  · intro inp trace st h
    unfold streamToViews at h
    by_cases ht : inp.tableExists = true
    · by_cases hcf : inp.copyFails = true
      · rw [ht, hcf] at h; simp at h
      · rw [Bool.not_eq_true] at hcf
        simp only [ht, hcf, Bool.not_true, Bool.false_eq_true, if_false,
          Except.ok.injEq, Prod.mk.injEq] at h
        rw [← h.2, commitLoop_fst]
        simp
    · rw [Bool.not_eq_true] at ht
      rw [ht] at h
      simp at h
  · intro k revs h hok
    obtain ⟨hne, hmem⟩ := (threadFunc_roundStart_iff env fuel k).mp h
    constructor
    · intro hnext
      obtain ⟨_, hmemnext⟩ :=
        (threadFunc_roundStart_iff env fuel (k + 1)).mp hnext
      obtain ⟨_, _, _, _, hprev⟩ :=
        tfLoop_roundStart_facts env fuel 0 (k + 1) hmemnext
      obtain ⟨revs', hok'⟩ := (hprev k (by omega) (by omega)).2
      rw [hok] at hok'
      simp only [Except.ok.injEq, Prod.mk.injEq] at hok'
      exact absurd hok'.2 (by simp)
    · intro hcf
      have hexit := tfLoop_exits_of_break env fuel 0 k hmem
        (Or.inr (Or.inl ⟨revs, hok⟩))
      refine (threadFunc_reschedule_iff env fuel RESCHEDULE_MS).mpr
        ⟨rfl, ?_, hcf⟩
      unfold threadFuncBody
      rw [if_pos (fun he => hne (List.length_eq_zero.mp he))]
      exact hexit

/-- Environment whose single stream stalls in every round. -/
def envStalledRound : SchedulerEnv :=
  { depsInit := [DepNode.mk true false false []]
    numCreated := 1
    cancelledAt := fun _ => false
    depsAt := fun _ => []
    tableExistsAt := fun _ => true
    copyFailsAt := fun _ => false
    streamDataAt := fun _ _ => ⟨[3], true⟩
    elapsedAt := fun _ => 0
    cancelledFinal := false }

theorem C7_stall_result_and_backoff_witness :
    SEv.roundStart 1 ∉ (threadFunc envStalledRound 3).1 ∧
      SEv.reschedule RESCHEDULE_MS ∈ (threadFunc envStalledRound 3).1 := by
  have h := (C7_stall_result_and_backoff envStalledRound 3).2 0
    [REv.deliver 3, REv.commit 0] (by decide) rfl
  exact ⟨h.1, h.2 rfl⟩

/-- C10: with zero created consumers the public read path returns an
empty source list (no error), and a scheduler invocation never runs a
delivery round — its trace is silent — though (cancellation not set) it
still reschedules itself. -/
theorem C10_zero_consumers (env : SchedulerEnv) (fuel : Nat) :
    readPipes 0 = [] ∧
    (env.numCreated = 0 → 0 < fuel →
      schedOnly (threadFunc env fuel).1 = true ∧
        (env.cancelledFinal = false →
          SEv.reschedule RESCHEDULE_MS ∈ (threadFunc env fuel).1)) := by
  refine ⟨rfl, fun h0 hf => ?_⟩
  obtain ⟨hb1, hb2⟩ :=
    threadFuncBody_nil_of_entry_fail env fuel (Or.inr (Or.inl h0))
  refine ⟨schedOnly_of_body_nil env fuel hb1, fun hcf => ?_⟩
  exact (threadFunc_reschedule_iff env fuel RESCHEDULE_MS).mpr
    ⟨rfl, hb2 hf, hcf⟩

/-- Environment of a table whose startup provisioned no consumers. -/
def envNoConsumers : SchedulerEnv :=
  { depsInit := [DepNode.mk true false false []]
    numCreated := 0
    cancelledAt := fun _ => false
    depsAt := fun _ => []
    tableExistsAt := fun _ => true
    copyFailsAt := fun _ => false
    streamDataAt := fun _ _ => ⟨[], false⟩
    elapsedAt := fun _ => 0
    cancelledFinal := false }

theorem C10_zero_consumers_witness :
    readPipes 0 = [] ∧
      schedOnly (threadFunc envNoConsumers 2).1 = true := by
  have h := C10_zero_consumers envNoConsumers 2
  exact ⟨h.1, (h.2 rfl (by omega)).1⟩

/-- Helper for C8: draining a full pool (semaphore level = buffer count
= `n`) performs all `n` pops, none of which would block, and empties the
pool. -/
theorem drainLoop_complete : ∀ n (s : PoolSys), s.sem = n →
    s.buffers.length = n →
    (drainLoop n s).2.1 = n ∧ (drainLoop n s).2.2 = true ∧
      (drainLoop n s).1.sem = 0 ∧ (drainLoop n s).1.buffers = [] := by
  intro n
  induction n with
  | zero =>
      intro s h1 h2
      exact ⟨rfl, rfl, by simp [drainLoop, h1],
        by simp [drainLoop, List.length_eq_zero.mp h2]⟩
  | succ n ih =>
      intro s h1 h2
      obtain ⟨bufs, sem, out, prov⟩ := s
      simp only at h1 h2
      subst h1
      cases bufs with
      | nil => simp at h2
      | cons b rest =>
          have hrest : rest.length = n := by simpa using h2
          have hpop : popReadBuffer ⟨b :: rest, n + 1, out, prov⟩ =
              some (b, ⟨rest, n, out, prov⟩) := rfl
          have := ih ⟨rest, n, out, prov⟩ rfl hrest
          simp only [drainLoop, hpop]
          exact ⟨by rw [this.1], this.2.1, this.2.2.1, this.2.2.2⟩

/-- C8: shutdown emits, in order: set the cancellation flag (exactly
once, first), deactivate the scheduler task, pop exactly one reader per
provisioned reader, then wait for librdkafka teardown with the bounded
`CLEANUP_TIMEOUT_MS`.  Under the stated precondition — the loop observed
cancellation, so every provisioned reader is back in the pool — none of
the pops blocks and the pool ends empty with semaphore level 0. -/
theorem C8_shutdown_protocol (numCreated : Nat) (s : PoolSys)
    (hsem : s.sem = numCreated) (hlen : s.buffers.length = numCreated) :
    (shutdown numCreated s).1 =
      [ShutEv.setCancelled, ShutEv.deactivateTask]
        ++ List.replicate numCreated ShutEv.popped
        ++ [ShutEv.waitDestroyed CLEANUP_TIMEOUT_MS] ∧
    (shutdown numCreated s).2.2 = true ∧
    (shutdown numCreated s).2.1.sem = 0 ∧
    (shutdown numCreated s).2.1.buffers = [] := by
  obtain ⟨hc, hnb, hsem0, hbuf0⟩ := drainLoop_complete numCreated s hsem hlen
  refine ⟨?_, hnb, hsem0, hbuf0⟩
  simp only [shutdown]
  rw [hc]

/-- A fully returned pool with two provisioned readers. -/
def poolTwoReturned : PoolSys := ⟨[1, 2], 2, [], 2⟩

theorem C8_shutdown_protocol_witness :
    (shutdown 2 poolTwoReturned).1 =
      [ShutEv.setCancelled, ShutEv.deactivateTask]
        ++ List.replicate 2 ShutEv.popped
        ++ [ShutEv.waitDestroyed CLEANUP_TIMEOUT_MS] ∧
      (shutdown 2 poolTwoReturned).2.2 = true ∧
      (shutdown 2 poolTwoReturned).2.1.sem = 0 ∧
      (shutdown 2 poolTwoReturned).2.1.buffers = [] :=
  C8_shutdown_protocol 2 poolTwoReturned rfl rfl

/-- Helper for C9: facts about the provisioning loop, for any starting
pool and counter. -/
theorem startupLoop_facts (factory : Nat → Option ConsumerBufferPtr) :
    ∀ (l : List Nat) (s : PoolSys) (c : Nat),
      (startupLoop factory l s c).2.1 =
        c + l.countP (fun i => (factory i).isSome) ∧
      (startupLoop factory l s c).1.buffers.length =
        s.buffers.length + l.countP (fun i => (factory i).isSome) ∧
      (startupLoop factory l s c).1.sem =
        s.sem + l.countP (fun i => (factory i).isSome) ∧
      ∀ i ∈ l, StartEv.created i ∈ (startupLoop factory l s c).2.2 ∨
        StartEv.failed i ∈ (startupLoop factory l s c).2.2 := by
  intro l
  induction l with
  | nil => intro s c; simp [startupLoop]
  | cons i rest ih =>
      intro s c
      cases hf : factory i with
      | some b =>
          have hcount : (i :: rest).countP (fun j => (factory j).isSome) =
              rest.countP (fun j => (factory j).isSome) + 1 := by
            simp [List.countP_cons, hf]
          have H := ih (pushReadBuffer s b) (c + 1)
          have hpb : (pushReadBuffer s b).buffers.length =
              s.buffers.length + 1 := by simp [pushReadBuffer]
          have hps : (pushReadBuffer s b).sem = s.sem + 1 := rfl
          simp only [startupLoop, hf, hcount]
          refine ⟨by rw [H.1]; omega, ?_, ?_, ?_⟩
          · rw [H.2.1, hpb]; omega
          · rw [H.2.2.1, hps]; omega
          · intro j hj
            rcases List.mem_cons.mp hj with rfl | hj
            · exact Or.inl (List.mem_cons_self _ _)
            · rcases H.2.2.2 j hj with h | h
              · exact Or.inl (List.mem_cons_of_mem _ h)
              · exact Or.inr (List.mem_cons_of_mem _ h)
      | none =>
          have hcount : (i :: rest).countP (fun j => (factory j).isSome) =
              rest.countP (fun j => (factory j).isSome) := by
            simp [List.countP_cons, hf]
          have H := ih s c
          simp only [startupLoop, hf, hcount]
          refine ⟨H.1, H.2.1, H.2.2.1, ?_⟩
          intro j hj
          rcases List.mem_cons.mp hj with rfl | hj
          · exact Or.inr (List.mem_cons_self _ _)
          · rcases H.2.2.2 j hj with h | h
            · exact Or.inl (List.mem_cons_of_mem _ h)
            · exact Or.inr (List.mem_cons_of_mem _ h)

/-- C9: startup provisioning is best-effort: after `startup`, the
created-consumer count equals the number of consumer indices whose
factory call succeeded, is at most the configured count, and equals both
the pool size and the semaphore level; every slot was attempted (each
index yields either a created or a logged-failure event, never an
abort); and the scheduler task is activated regardless. -/
theorem C9_startup_best_effort (numConsumers : Nat)
    (factory : Nat → Option ConsumerBufferPtr) :
    (startup numConsumers factory).2.1 =
      (List.range numConsumers).countP (fun i => (factory i).isSome) ∧
    (startup numConsumers factory).2.1 ≤ numConsumers ∧
    (startup numConsumers factory).1.buffers.length =
      (startup numConsumers factory).2.1 ∧
    (startup numConsumers factory).1.sem =
      (startup numConsumers factory).2.1 ∧
    (∀ i, i < numConsumers →
      StartEv.created i ∈ (startup numConsumers factory).2.2 ∨
        StartEv.failed i ∈ (startup numConsumers factory).2.2) ∧
    StartEv.activate ∈ (startup numConsumers factory).2.2 := by
  obtain ⟨h1, h2, h3, h4⟩ :=
    startupLoop_facts factory (List.range numConsumers) poolInit 0
  have hle : (List.range numConsumers).countP
      (fun i => (factory i).isSome) ≤ numConsumers := by
    have := List.countP_le_length
      (p := fun i => (factory i).isSome) (l := List.range numConsumers)
    simpa using this
  unfold startup
  simp only
  refine ⟨by rw [h1]; omega, by rw [h1]; omega, ?_, ?_, ?_, ?_⟩
  · rw [h2, h1]; simp [poolInit]
  · rw [h3, h1]; simp [poolInit]
  · intro i hi
    rcases h4 i (List.mem_range.mpr hi) with h | h
    · exact Or.inl (List.mem_append_left _ h)
    · exact Or.inr (List.mem_append_left _ h)
  · exact List.mem_append_right _ (List.mem_singleton.mpr rfl)

/-- A factory in which slot 1 of 3 fails with a connection error. -/
def flakyFactory : Nat → Option ConsumerBufferPtr :=
  fun i => if i = 1 then none else some (100 + i)

theorem C9_startup_best_effort_witness :
    (startup 3 flakyFactory).2.1 =
      (List.range 3).countP (fun i => (flakyFactory i).isSome) ∧
      (startup 3 flakyFactory).2.1 ≤ 3 ∧
      StartEv.activate ∈ (startup 3 flakyFactory).2.2 ∧
      (StartEv.created 2 ∈ (startup 3 flakyFactory).2.2 ∨
        StartEv.failed 2 ∈ (startup 3 flakyFactory).2.2) := by
  have h := C9_startup_best_effort 3 flakyFactory
  exact ⟨h.1, h.2.1, h.2.2.2.2.2, h.2.2.2.2.1 2 (by omega)⟩

end KafkaModel
